import Mathlib

/-!
Shallow embedding of `src/.devcontainer/audio_sync_improved.py`, an audio
deduplication and report script.  File-system access, SHA-1 hashing and the
mutagen tag reader are external effects; they are modelled as explicit oracle
functions (path → result) passed to the embedded pipeline, everything else is
translated directly from the Python source.  Paths are POSIX strings; the
relevant fragments of `pathlib.PurePosixPath` (`str(Path(s))` normalisation,
`.suffix`, `.name`, the `/` join) are modelled below over `List Char` so that
every definition is executable by the kernel.
-/

namespace AudioSync

/-- Model of `str.startswith` / list view: `a` is a leading piece of `b`. -/
def startsWithStr (a b : String) : Bool :=
  a.data.isPrefixOf b.data

/-- Model of `str.lower` for the ASCII strings the script compares. -/
def lowerStr (s : String) : String :=
  String.mk (s.data.map Char.toLower)

/-- Model of `str.endswith` used for the `.localized` directory check. -/
def endsWithStr (a b : String) : Bool :=
  a.data.isSuffixOf b.data

/-- Last character test, used to model `os.path.join` on normalised paths. -/
def endsWithChar (s : String) (c : Char) : Bool :=
  match s.data.getLast? with
  | some x => x = c
  | none => false

/-- Split a character list on `/` (model of the segment view of a POSIX path). -/
def splitSlash : List Char → List (List Char)
  | [] => [[]]
  | c :: cs =>
    let r := splitSlash cs
    if c = '/' then [] :: r
    else
      match r with
      | [] => [[c]]
      | hd :: tl => (c :: hd) :: tl

/-- Rejoin path segments with `/`. -/
def joinSegs : List (List Char) → List Char
  | [] => []
  | [x] => x
  | x :: xs => x ++ '/' :: joinSegs xs

/-- Model of `str(pathlib.PurePosixPath(s))`: drops empty and `.` segments,
collapses repeated slashes (keeping the POSIX special case of a path starting
with exactly two slashes), maps the empty path to `.`.  `..` segments are kept,
as pathlib keeps them. -/
def pyNorm (s : String) : String :=
  let segs := (splitSlash s.data).filter (fun t => !t.isEmpty && !(t = ['.'] : Bool))
  let isAbs := startsWithStr "/" s
  let isDbl := startsWithStr "//" s && !(startsWithStr "///" s)
  if segs.isEmpty then
    (if isDbl then "//" else if isAbs then "/" else ".")
  else
    let body := String.mk (joinSegs segs)
    if isDbl then "//" ++ body
    else if isAbs then "/" ++ body
    else body

/-- Model of `os.path.join dir name` (equivalently `str(Path(dir) / name)`) for
an already-normalised `dir` and a plain basename `name`. -/
def pyJoin (d n : String) : String :=
  if endsWithChar d '/' then d ++ n else d ++ "/" ++ n

/-- The tail of a name starting at its last dot, if any (helper for
`PurePath.suffix`). -/
def afterLastDot : List Char → Option (List Char)
  | [] => none
  | c :: cs =>
    match afterLastDot cs with
    | some t => some t
    | none => if c = '.' then some (c :: cs) else none

/-- Model of `pathlib.PurePath(name).suffix` for a basename: the part from the
last dot on, provided that dot is neither the first nor the last character. -/
def pySuffix (name : String) : String :=
  let cs := name.data
  match afterLastDot cs with
  | none => ""
  | some t => if t.length < cs.length ∧ 2 ≤ t.length then String.mk t else ""

/-- Model of `pathlib.PurePath(p).name`: the final path component. -/
def pyName (p : String) : String :=
  match (splitSlash p.data).getLast? with
  | some t => String.mk t
  | none => ""

/-- `AUDIO_EXT` from the script. -/
def AUDIO_EXT : List String :=
  [".wav", ".aif", ".aiff", ".flac", ".m4a", ".aac", ".mp3"]

/-- Decidable string membership used for the extension filter. -/
def memStr (l : List String) (x : String) : Bool :=
  l.any (fun e => decide (e = x))

/-- `compute_quality_rank` from the script, translated clause by clause. -/
def compute_quality_rank (ext : String) (bitrate : Option Int) : Nat :=
  if ext = ".wav" ∨ ext = ".aif" ∨ ext = ".aiff" then 1
  else if ext = ".flac" then 2
  else
    match bitrate with
    | none => 9999
    | some b =>
      if b ≥ 320 then 3
      else if b ≥ 256 then 4
      else if b ≥ 192 then 5
      else 6

/-!
Filesystem model.  A directory's contents are a list of nodes; a file node
carries its basename, its size, and a flag telling whether `p.is_file()` /
`p.stat()` succeed (when `false`, the model stands for an `OSError` or
`PermissionError` raised by those calls).  Symbolic links and other special
entries are not modelled.  `os.walk` is top-down: the files of a directory are
handled before its (pruned) subdirectories are entered, in list order.
-/

mutual

inductive FSNode where
  | file (name : String) (size : Nat) (statOk : Bool) : FSNode
  | dir (name : String) (children : FSList) : FSNode

inductive FSList where
  | nil : FSList
  | cons (hd : FSNode) (tl : FSList) : FSList

end

/-- Directory filter from `scan_folder`: `dirnames[:] = [d for d in dirnames if
not d.lower().endswith(".localized") and not d.startswith(".")]`. -/
def keepDir (d : String) : Bool :=
  !(endsWithStr ".localized" (lowerStr d)) && !(startsWithStr "." d)

/-- Lowercased extension of a basename, as the script computes it
(`Path(...).suffix.lower()`). -/
def extOf (nm : String) : String :=
  lowerStr (pySuffix nm)

/-- Per-file body of the `for fname in filenames` loop of `scan_folder`:
returns the paths appended to `report` and the messages appended to `errors`.
The text of the caught exception is modelled by the fixed token `err`. -/
def fileStep (p nm : String) (s : Nat) (ok : Bool) : List String × List String :=
  if startsWithStr "._" nm then ([], [])
  else if !(memStr AUDIO_EXT (extOf nm)) then ([], [])
  else if ok then (if 0 < s then ([pyJoin p nm], []) else ([], []))
  else ([], ["Cannot access: " ++ pyJoin p nm ++ " - err"])

/-- Concatenate two (report, errors) pairs. -/
def pairApp (a b : List String × List String) : List String × List String :=
  (a.1 ++ b.1, a.2 ++ b.2)

/-- The file pass over one directory's entries (subdirectories are handled by
`walkListDirs`). -/
def walkFilesPass (p : String) : FSList → List String × List String
  | .nil => ([], [])
  | .cons (.file nm s ok) tl => pairApp (fileStep p nm s ok) (walkFilesPass p tl)
  | .cons (.dir _ _) tl => walkFilesPass p tl

mutual

/-- Recursive descent of `os.walk` into one (non-pruned) subdirectory. -/
def walkNode (p : String) : FSNode → List String × List String
  | .file _ _ _ => ([], [])
  | .dir d ch =>
    if keepDir d then
      pairApp (walkFilesPass (pyJoin p d) ch) (walkListDirs (pyJoin p d) ch)
    else ([], [])

/-- Recursive descent of `os.walk` into a directory's subdirectories, in
order. -/
def walkListDirs (p : String) : FSList → List String × List String
  | .nil => ([], [])
  | .cons n tl => pairApp (walkNode p n) (walkListDirs p tl)

end

/-- The whole `os.walk` traversal of `scan_folder` starting at the normalised
root string `p` whose entries are `l`. -/
def walkTop (p : String) (l : FSList) : List String × List String :=
  pairApp (walkFilesPass p l) (walkListDirs p l)

/-- `scan_folder(root_path, report, errors)`: the lists it appends to `report`
and `errors`.  The filesystem oracle `fs` maps a normalised directory path to
its entries, or `none` when no such directory exists (`root.exists()` is
false). -/
def scan_folder (rootPath : String) (fs : String → Option FSList) :
    List String × List String :=
  match fs (pyNorm rootPath) with
  | none => ([], ["Path not found: " ++ rootPath])
  | some children => walkTop (pyNorm rootPath) children

/-!
Arithmetic, metadata and the analysis pipeline.  Audio durations are modelled
as exact rationals (Python floats are binary, so `round` can differ from exact
decimal rounding on values that are not exactly representable; the claims here
do not depend on that difference).  Python's `round` rounds halves to even.
-/

/-- Python's `round(x)`: nearest integer, ties to even. -/
def roundHalfEven (x : ℚ) : ℤ :=
  if x - (⌊x⌋ : ℚ) < 1 / 2 then ⌊x⌋
  else if 1 / 2 < x - (⌊x⌋ : ℚ) then ⌊x⌋ + 1
  else if ⌊x⌋ % 2 = 0 then ⌊x⌋ else ⌊x⌋ + 1

/-- Python's `round(x, 2)`. -/
def pyRound2 (x : ℚ) : ℚ :=
  (roundHalfEven (x * 100) : ℚ) / 100

/-- `get_bitrate_and_duration`.  The mutagen call is an external effect,
modelled by the oracle `mfn`: `none` stands for `MutagenFile` returning `None`
or raising, `some (b, d)` for a parsed file whose `info.bitrate` is `b` (in
bits per second) and `info.length` is `d` (absent attributes are `none`). -/
def get_bitrate_and_duration (mfn : String → Option (Option Int × Option ℚ))
    (path : String) : Option Int × Option ℚ :=
  match mfn path with
  | none => (none, none)
  | some (bitrate, duration) =>
    (bitrate.map (fun b => roundHalfEven ((b : ℚ) / 1000)), duration)

/-- `master_hashes` is a Python dict; modelled as an association list with
Python's dict semantics: assigning to an existing key overwrites its value in
place, a new key is appended. -/
def dictInsert (m : List (String × String)) (k v : String) :
    List (String × String) :=
  if m.any (fun kv => decide (kv.1 = k)) then
    m.map (fun kv => if kv.1 = k then (k, v) else kv)
  else m ++ [(k, v)]

/-- `k in d` for the dict model. -/
def dictMem (m : List (String × String)) (k : String) : Bool :=
  m.any (fun kv => decide (kv.1 = k))

/-- Body of the first `for f in all_files` loop of `main` (the master-index
loop): `if f.startswith(master): h = hash_file(f); if h: master_hashes[h] = f`.
`hash_file` reads the file, an external effect: the oracle `hashFn` maps a path
to its SHA-1 hex digest, or `none` when the read raises and `hash_file`
returns `None`. -/
def masterStep (master : String) (hashFn : String → Option String)
    (m : List (String × String)) (f : String) : List (String × String) :=
  if startsWithStr master f then
    match hashFn f with
    | some h => dictInsert m h f
    | none => m
  else m

/-- The complete `master_hashes` dict after the first loop of `main`. -/
def buildMasterHashes (master : String) (files : List String)
    (hashFn : String → Option String) : List (String × String) :=
  files.foldl (masterStep master hashFn) []

/-- One per-file record of the `detailed` list / JSON `files` array. -/
structure Entry where
  source_path : String
  filename : String
  format : String
  bitrate_kbps : Option Int
  duration_sec : Option ℚ
  hash : String
  in_master : Bool
  quality_rank : Nat
  recommended_action : String
deriving DecidableEq

/-- The `entry` dict built by the second `for f in all_files` loop of `main`
for a file `f` with digest `h`.  Note `round(duration, 2) if duration else
None`: Python truthiness sends both `None` and `0.0` to `None`. -/
def mkEntry (master_hashes : List (String × String))
    (mfn : String → Option (Option Int × Option ℚ)) (f h : String) : Entry :=
  let bd := get_bitrate_and_duration mfn f
  let in_master := dictMem master_hashes h
  let ext := extOf (pyName f)
  { source_path := f
    filename := pyName f
    format := ext
    bitrate_kbps := bd.1
    duration_sec :=
      match bd.2 with
      | none => none
      | some d => if d = 0 then none else some (pyRound2 d)
    hash := h
    in_master := in_master
    quality_rank := compute_quality_rank ext bd.1
    recommended_action :=
      if in_master then "EXISTS_IN_MASTER" else "NEW_IN_MASTER" }

/-- Body of the second `for f in all_files` loop of `main`: `none` when the
file hashes to `None` (it then goes to `hash_errors`), otherwise the entry
appended to `detailed`. -/
def analyzeFile (master_hashes : List (String × String))
    (hashFn : String → Option String)
    (mfn : String → Option (Option Int × Option ℚ)) (f : String) :
    Option Entry :=
  match hashFn f with
  | none => none
  | some h => some (mkEntry master_hashes mfn f h)

/-- `summary.setdefault(ext, 0); summary[ext] += 1` on the dict model. -/
def bumpCount (s : List (String × Nat)) (k : String) : List (String × Nat) :=
  if s.any (fun kv => decide (kv.1 = k)) then
    s.map (fun kv => if kv.1 = k then (kv.1, kv.2 + 1) else kv)
  else s ++ [(k, 1)]

/-- The `summary` per-extension counts accumulated by the second loop. -/
def summaryOf (detailed : List Entry) : List (String × Nat) :=
  detailed.foldl (fun s e => bumpCount s e.format) []

/-- Everything `main` computes that reaches the report files, apart from the
generation timestamp and the elapsed wall-clock time (which come from the
clock, not from the inputs). -/
structure RunResult where
  master_path : String
  all_files : List String
  scan_errors : List String
  master_hashes : List (String × String)
  hash_errors : List String
  detailed : List Entry
  summary : List (String × Nat)

/-- `main` after argument decoding: scan the master root and the optional
`musik` and `evo` roots (note `if musik:` — Python truthiness skips an empty
string), then the master-index loop, then the analysis loop. -/
def runPipeline (master : String) (musik evo : Option String)
    (fs : String → Option FSList) (hashFn : String → Option String)
    (mfn : String → Option (Option Int × Option ℚ)) : RunResult :=
  let s1 := scan_folder master fs
  let s2 :=
    match musik with
    | some m => if m = "" then ([], []) else scan_folder m fs
    | none => ([], [])
  let s3 :=
    match evo with
    | some m => if m = "" then ([], []) else scan_folder m fs
    | none => ([], [])
  let all_files := s1.1 ++ s2.1 ++ s3.1
  let master_hashes := buildMasterHashes master all_files hashFn
  let detailed := all_files.filterMap (analyzeFile master_hashes hashFn mfn)
  { master_path := master
    all_files := all_files
    scan_errors := s1.2 ++ s2.2 ++ s3.2
    master_hashes := master_hashes
    hash_errors := all_files.filter (fun f => (hashFn f).isNone)
    detailed := detailed
    summary := summaryOf detailed }

/-- `main` including argument decoding: `sys.argv[1]` is required (else the
script prints usage and exits, modelled as `none`), `sys.argv[2]` and
`sys.argv[3]` are optional; any further arguments are never read. -/
def mainRun (argv : List String) (fs : String → Option FSList)
    (hashFn : String → Option String)
    (mfn : String → Option (Option Int × Option ℚ)) : Option RunResult :=
  match argv.get? 1 with
  | none => none
  | some master => some (runPipeline master (argv.get? 2) (argv.get? 3) fs hashFn mfn)

/-!
Event trace of the two hashing loops of `main`, for the temporal ordering
claim: the first loop emits an `insert` event per successfully hashed file
whose path passes the `startswith(master)` test, the second loop emits a
`check` event per successfully hashed file, recording the membership answer
the code computes there.  Since the code is sequential and the second loop
only starts after the first has finished, the dict consulted by every `check`
is the completed `buildMasterHashes master files hashFn`.
-/

inductive Event where
  | insert (h : String) (path : String) : Event
  | check (path : String) (h : String) (inMaster : Bool) : Event
deriving DecidableEq

def Event.isInsert : Event → Bool
  | .insert _ _ => true
  | _ => false

def Event.isCheck : Event → Bool
  | .check _ _ _ => true
  | _ => false

/-- The sequence of index insertions and membership checks `main` performs, in
program order. -/
def pipelineTrace (master : String) (files : List String)
    (hashFn : String → Option String) : List Event :=
  files.filterMap (fun f =>
    if startsWithStr master f then (hashFn f).map (fun h => Event.insert h f)
    else none) ++
  files.filterMap (fun f =>
    (hashFn f).map (fun h =>
      Event.check f h (dictMem (buildMasterHashes master files hashFn) h)))

/-!
Two file collectors over the filesystem model, used to state the scanner
claims.  `underList` collects every file in the subtree (the spec's "files
under the root"), `reachList` collects only the files `os.walk` can reach,
i.e. it does not descend into pruned (hidden or `.localized`) directories.
Each record is (joined path, basename, size, statOk).
-/

mutual

def underNode (p : String) : FSNode → List (String × String × Nat × Bool)
  | .file nm s ok => [(pyJoin p nm, nm, s, ok)]
  | .dir d ch => underList (pyJoin p d) ch

def underList (p : String) : FSList → List (String × String × Nat × Bool)
  | .nil => []
  | .cons n tl => underNode p n ++ underList p tl

end

/-- The file records of one directory level (mirrors `walkFilesPass`). -/
def reachFilesPass (p : String) : FSList → List (String × String × Nat × Bool)
  | .nil => []
  | .cons (.file nm s ok) tl => (pyJoin p nm, nm, s, ok) :: reachFilesPass p tl
  | .cons (.dir _ _) tl => reachFilesPass p tl

mutual

def reachNode (p : String) : FSNode → List (String × String × Nat × Bool)
  | .file _ _ _ => []
  | .dir d ch =>
    if keepDir d then
      reachFilesPass (pyJoin p d) ch ++ reachListDirs (pyJoin p d) ch
    else []

def reachListDirs (p : String) : FSList → List (String × String × Nat × Bool)
  | .nil => []
  | .cons n tl => reachNode p n ++ reachListDirs p tl

end

/-- All files `os.walk` reaches from root string `p` with entries `l`. -/
def reachable (p : String) (l : FSList) : List (String × String × Nat × Bool) :=
  reachFilesPass p l ++ reachListDirs p l

/-- The per-file conditions of the scanner for an accessible file: basename
not a macOS resource fork, recognised audio extension, strictly positive
size. -/
def scanKeep (nm : String) (s : Nat) : Prop :=
  startsWithStr "._" nm = false ∧ memStr AUDIO_EXT (extOf nm) = true ∧ 0 < s

/-! Helper lemmas about the dict model and the master-index fold. -/

theorem dictMem_iff (m : List (String × String)) (k : String) :
    dictMem m k = true ↔ ∃ kv ∈ m, kv.1 = k := by
  simp [dictMem, List.any_eq_true]

theorem dictMem_dictInsert (m : List (String × String)) (k v k' : String) :
    dictMem (dictInsert m k v) k' = true ↔ (k' = k ∨ dictMem m k' = true) := by
  rw [dictMem_iff, dictMem_iff]
  unfold dictInsert
  by_cases hk : m.any (fun kv => decide (kv.1 = k)) = true
  · rw [if_pos hk]
    have hk' : ∃ kv ∈ m, kv.1 = k := by
      simpa [List.any_eq_true] using hk
    constructor
    · rintro ⟨kv, hkv, hEq⟩
      rcases List.mem_map.mp hkv with ⟨kv0, hkv0, hmap⟩
      by_cases hx : kv0.1 = k
      · rw [if_pos hx] at hmap
        subst hmap
        exact Or.inl hEq.symm
      · rw [if_neg hx] at hmap
        subst hmap
        exact Or.inr ⟨kv0, hkv0, hEq⟩
    · rintro (rfl | ⟨kv, hkv, hEq⟩)
      · rcases hk' with ⟨kv0, hkv0, hx⟩
        exact ⟨(k', v), List.mem_map.mpr ⟨kv0, hkv0, by rw [if_pos hx]⟩, rfl⟩
      · by_cases hx : kv.1 = k
        · refine ⟨(k, v), List.mem_map.mpr ⟨kv, hkv, by rw [if_pos hx]⟩, ?_⟩
          rw [← hEq, hx]
        · exact ⟨kv, List.mem_map.mpr ⟨kv, hkv, by rw [if_neg hx]⟩, hEq⟩
  · rw [if_neg hk]
    constructor
    · rintro ⟨kv, hkv, hEq⟩
      rcases List.mem_append.mp hkv with h1 | h2
      · exact Or.inr ⟨kv, h1, hEq⟩
      · rw [List.mem_singleton] at h2
        subst h2
        exact Or.inl hEq.symm
    · rintro (rfl | ⟨kv, hkv, hEq⟩)
      · exact ⟨(k', v), List.mem_append.mpr (Or.inr (List.mem_singleton.mpr rfl)), rfl⟩
      · exact ⟨kv, List.mem_append.mpr (Or.inl hkv), hEq⟩

theorem dictMem_masterStep (master : String) (hashFn : String → Option String)
    (m : List (String × String)) (f h : String) :
    dictMem (masterStep master hashFn m f) h = true ↔
      (dictMem m h = true ∨
        (startsWithStr master f = true ∧ hashFn f = some h)) := by
  unfold masterStep
  by_cases hs : startsWithStr master f = true
  · rw [if_pos hs]
    cases hh : hashFn f with
    | none => simp [hs, hh]
    | some h' =>
      rw [dictMem_dictInsert]
      simp only [hs, hh, Option.some.injEq, true_and]
      tauto
  · rw [if_neg hs]
    simp [hs]

theorem dictMem_foldl_masterStep (master : String)
    (hashFn : String → Option String) (files : List String)
    (m : List (String × String)) (h : String) :
    dictMem (files.foldl (masterStep master hashFn) m) h = true ↔
      (dictMem m h = true ∨
        ∃ f ∈ files, startsWithStr master f = true ∧ hashFn f = some h) := by
  induction files generalizing m with
  | nil => simp
  | cons f fs ih =>
    rw [List.foldl_cons, ih, dictMem_masterStep]
    simp only [List.exists_mem_cons_iff]
    tauto

theorem dictMem_buildMasterHashes (master : String) (files : List String)
    (hashFn : String → Option String) (h : String) :
    dictMem (buildMasterHashes master files hashFn) h = true ↔
      ∃ f ∈ files, startsWithStr master f = true ∧ hashFn f = some h := by
  unfold buildMasterHashes
  rw [dictMem_foldl_masterStep]
  simp [dictMem]

/-! Helper lemmas about the analysis loop and the pipeline record. -/

theorem analyzeFile_eq_none_iff (M : List (String × String))
    (hashFn : String → Option String)
    (mfn : String → Option (Option Int × Option ℚ)) (f : String) :
    analyzeFile M hashFn mfn f = none ↔ hashFn f = none := by
  unfold analyzeFile
  cases hashFn f <;> simp

theorem analyzeFile_eq_some_iff (M : List (String × String))
    (hashFn : String → Option String)
    (mfn : String → Option (Option Int × Option ℚ)) (f : String) (e : Entry) :
    analyzeFile M hashFn mfn f = some e ↔
      ∃ h, hashFn f = some h ∧ e = mkEntry M mfn f h := by
  unfold analyzeFile
  cases hh : hashFn f <;> simp
  exact eq_comm

theorem runPipeline_master_hashes (master : String) (musik evo : Option String)
    (fs : String → Option FSList) (hashFn : String → Option String)
    (mfn : String → Option (Option Int × Option ℚ)) :
    (runPipeline master musik evo fs hashFn mfn).master_hashes =
      buildMasterHashes master
        (runPipeline master musik evo fs hashFn mfn).all_files hashFn := rfl

theorem runPipeline_detailed (master : String) (musik evo : Option String)
    (fs : String → Option FSList) (hashFn : String → Option String)
    (mfn : String → Option (Option Int × Option ℚ)) :
    (runPipeline master musik evo fs hashFn mfn).detailed =
      (runPipeline master musik evo fs hashFn mfn).all_files.filterMap
        (analyzeFile (runPipeline master musik evo fs hashFn mfn).master_hashes
          hashFn mfn) := rfl

theorem runPipeline_hash_errors (master : String) (musik evo : Option String)
    (fs : String → Option FSList) (hashFn : String → Option String)
    (mfn : String → Option (Option Int × Option ℚ)) :
    (runPipeline master musik evo fs hashFn mfn).hash_errors =
      (runPipeline master musik evo fs hashFn mfn).all_files.filter
        (fun f => (hashFn f).isNone) := rfl

/-! Projection lemmas for the per-file entry. -/

theorem mkEntry_source_path (M : List (String × String))
    (mfn : String → Option (Option Int × Option ℚ)) (f h : String) :
    (mkEntry M mfn f h).source_path = f := rfl

theorem mkEntry_hash (M : List (String × String))
    (mfn : String → Option (Option Int × Option ℚ)) (f h : String) :
    (mkEntry M mfn f h).hash = h := rfl

theorem mkEntry_in_master (M : List (String × String))
    (mfn : String → Option (Option Int × Option ℚ)) (f h : String) :
    (mkEntry M mfn f h).in_master = dictMem M h := rfl

theorem mkEntry_recommended (M : List (String × String))
    (mfn : String → Option (Option Int × Option ℚ)) (f h : String) :
    (mkEntry M mfn f h).recommended_action =
      if dictMem M h then "EXISTS_IN_MASTER" else "NEW_IN_MASTER" := rfl

theorem mkEntry_duration (M : List (String × String))
    (mfn : String → Option (Option Int × Option ℚ)) (f h : String) :
    (mkEntry M mfn f h).duration_sec =
      match (get_bitrate_and_duration mfn f).2 with
      | none => none
      | some d => if d = 0 then none else some (pyRound2 d) := rfl

/-! Claim theorems. -/

/-- C2: the quality rank is a pure total function of (extension, bitrate):
wav/aif/aiff rank 1 and flac rank 2 for every bitrate including `none`; for
every other recognised extension, a `none` bitrate ranks 9999, bitrate ≥ 320
ranks 3, ≥ 256 ranks 4, ≥ 192 ranks 5, and any lower bitrate ranks 6. -/
theorem C2_quality_rank_ok :
    (∀ (ext : String) (bitrate : Option Int),
        (ext = ".wav" ∨ ext = ".aif" ∨ ext = ".aiff") →
        compute_quality_rank ext bitrate = 1) ∧
    (∀ bitrate : Option Int, compute_quality_rank ".flac" bitrate = 2) ∧
    (∀ ext : String, ext ∈ AUDIO_EXT → ext ≠ ".wav" → ext ≠ ".aif" →
        ext ≠ ".aiff" → ext ≠ ".flac" →
      compute_quality_rank ext none = 9999 ∧
      (∀ b : Int, 320 ≤ b → compute_quality_rank ext (some b) = 3) ∧
      (∀ b : Int, 256 ≤ b → b < 320 → compute_quality_rank ext (some b) = 4) ∧
      (∀ b : Int, 192 ≤ b → b < 256 → compute_quality_rank ext (some b) = 5) ∧
      (∀ b : Int, b < 192 → compute_quality_rank ext (some b) = 6)) := by
  refine ⟨?_, ?_, ?_⟩
  · rintro ext bitrate (rfl | rfl | rfl) <;> rfl
  · intro bitrate; rfl
  · intro ext _ h1 h2 h3 h4
    have hno : ¬(ext = ".wav" ∨ ext = ".aif" ∨ ext = ".aiff") := by tauto
    refine ⟨by simp [compute_quality_rank, hno, h4], ?_, ?_, ?_, ?_⟩
    · intro b hb
      simp [compute_quality_rank, hno, h4, hb]
    · intro b hb hb'
      have hx : ¬(b ≥ 320) := by omega
      simp [compute_quality_rank, hno, h4, hb, hx]
    · intro b hb hb'
      have hx : ¬(b ≥ 320) := by omega
      have hy : ¬(b ≥ 256) := by omega
      simp [compute_quality_rank, hno, h4, hb, hx, hy]
    · intro b hb
      have hx : ¬(b ≥ 320) := by omega
      have hy : ¬(b ≥ 256) := by omega
      have hz : ¬(b ≥ 192) := by omega
      simp [compute_quality_rank, hno, h4, hx, hy, hz]

/-- C2 witness: the rank table at the spec's sample points. -/
theorem C2_quality_rank_witness :
    compute_quality_rank ".wav" (some 50) = 1 ∧
    compute_quality_rank ".flac" none = 2 ∧
    compute_quality_rank ".mp3" none = 9999 ∧
    compute_quality_rank ".mp3" (some 320) = 3 ∧
    compute_quality_rank ".mp3" (some 256) = 4 ∧
    compute_quality_rank ".mp3" (some 192) = 5 ∧
    compute_quality_rank ".mp3" (some 128) = 6 := by
  have hm : (".mp3" : String) ∈ AUDIO_EXT := by decide
  have hmain := C2_quality_rank_ok.2.2 ".mp3" hm
    (by decide) (by decide) (by decide) (by decide)
  exact ⟨C2_quality_rank_ok.1 ".wav" (some 50) (Or.inl rfl),
    C2_quality_rank_ok.2.1 none,
    hmain.1,
    hmain.2.1 320 (by decide),
    hmain.2.2.1 256 (by decide) (by decide),
    hmain.2.2.2.1 192 (by decide) (by decide),
    hmain.2.2.2.2 128 (by decide)⟩

/-- C1 counterexample: the claim says only files discovered under the master
root enter the master hash index.  With master argument "/music" and
secondary root "/music2", the master scan finds nothing, the secondary scan
finds "/music2/x.mp3", and that secondary file's digest is nevertheless
inserted into the index, because the code tests `f.startswith(master)` on the
path string. -/
theorem C1_counterexample :
    let fs : String → Option FSList := fun p =>
      if p = "/music" then some .nil
      else if p = "/music2" then some (.cons (.file "x.mp3" 10 true) .nil)
      else none
    let hashFn : String → Option String := fun p =>
      if p = "/music2/x.mp3" then some "h1" else none
    (scan_folder "/music" fs).1 = [] ∧
    (scan_folder "/music2" fs).1 = ["/music2/x.mp3"] ∧
    (runPipeline "/music" (some "/music2") none fs hashFn
        (fun _ => none)).master_hashes = [("h1", "/music2/x.mp3")] := by
  decide

/-- C1 (amended): a digest is a key of the master hash index exactly when some
file of the combined scan whose path string starts with the master argument
hashes to it; discovery under the master root as such plays no role. -/
theorem C1_master_index_ok (master : String) (musik evo : Option String)
    (fs : String → Option FSList) (hashFn : String → Option String)
    (mfn : String → Option (Option Int × Option ℚ)) (h : String) :
    dictMem (runPipeline master musik evo fs hashFn mfn).master_hashes h =
        true ↔
      ∃ f ∈ (runPipeline master musik evo fs hashFn mfn).all_files,
        startsWithStr master f = true ∧ hashFn f = some h := by
  rw [runPipeline_master_hashes, dictMem_buildMasterHashes]

/-- C10: arguments beyond the third are never read: two invocations that
agree on `sys.argv[1]`, `sys.argv[2]` and `sys.argv[3]` produce the same run
result whatever further arguments they carry. -/
theorem C10_extra_args_ok (a b : List String)
    (fs : String → Option FSList) (hashFn : String → Option String)
    (mfn : String → Option (Option Int × Option ℚ))
    (h1 : a.get? 1 = b.get? 1) (h2 : a.get? 2 = b.get? 2)
    (h3 : a.get? 3 = b.get? 3) :
    mainRun a fs hashFn mfn = mainRun b fs hashFn mfn := by
  unfold mainRun
  rw [h1, h2, h3]

/-- C10 witness: two argument vectors differing only from the fourth argument
on give identical results. -/
theorem C10_extra_args_witness :
    mainRun ["prog", "/m", "/s", "/t", "extra"] (fun _ => none)
        (fun _ => none) (fun _ => none) =
      mainRun ["prog", "/m", "/s", "/t", "other", "more"] (fun _ => none)
        (fun _ => none) (fun _ => none) ∧
    (["prog", "/m", "/s", "/t", "extra"] : List String) ≠
      ["prog", "/m", "/s", "/t", "other", "more"] := by
  exact ⟨C10_extra_args_ok _ _ _ _ _ rfl rfl rfl, by decide⟩

/-- C4 counterexample: the claim says every successfully hashed file under
the master root is reported `in_master = true` / `EXISTS_IN_MASTER`.  Invoked
with the master argument "./m", the scan yields the normalised path
"m/a.mp3", which does not start with the string "./m", so the master index
stays empty and the master's own file is reported `NEW_IN_MASTER`. -/
theorem C4_counterexample :
    let fs : String → Option FSList := fun p =>
      if p = "m" then some (.cons (.file "a.mp3" 5 true) .nil) else none
    let hashFn : String → Option String := fun p =>
      if p = "m/a.mp3" then some "ha" else none
    (scan_folder "./m" fs).1 = ["m/a.mp3"] ∧
    hashFn "m/a.mp3" = some "ha" ∧
    (runPipeline "./m" none none fs hashFn (fun _ => none)).detailed.map
        (fun e => (e.source_path, e.in_master, e.recommended_action)) =
      [("m/a.mp3", false, "NEW_IN_MASTER")] := by
  decide

/-- C4 (amended): every successfully hashed file of the combined scan whose
path string starts with the master argument — which is the case for files
discovered under the master root whenever the master argument is given in
normalised form — yields an entry with `in_master = true` and recommendation
`EXISTS_IN_MASTER`. -/
theorem C4_master_self_ok (master : String) (musik evo : Option String)
    (fs : String → Option FSList) (hashFn : String → Option String)
    (mfn : String → Option (Option Int × Option ℚ)) (f h : String)
    (hf : f ∈ (runPipeline master musik evo fs hashFn mfn).all_files)
    (hs : startsWithStr master f = true)
    (hh : hashFn f = some h) :
    ∃ e ∈ (runPipeline master musik evo fs hashFn mfn).detailed,
      e.source_path = f ∧ e.hash = h ∧ e.in_master = true ∧
        e.recommended_action = "EXISTS_IN_MASTER" := by
  have hmem :
      dictMem (runPipeline master musik evo fs hashFn mfn).master_hashes h =
        true := by
    rw [runPipeline_master_hashes, dictMem_buildMasterHashes]
    exact ⟨f, hf, hs, hh⟩
  refine ⟨mkEntry (runPipeline master musik evo fs hashFn mfn).master_hashes
      mfn f h, ?_, rfl, rfl, ?_, ?_⟩
  · rw [runPipeline_detailed]
    refine List.mem_filterMap.mpr ⟨f, hf, ?_⟩
    unfold analyzeFile
    rw [hh]
  · rw [mkEntry_in_master, hmem]
  · rw [mkEntry_recommended, hmem]
    rfl

/-- C4 witness: with a normalised master argument the master's own file is
reported as already in the master. -/
theorem C4_master_self_witness :
    ∃ e ∈ (runPipeline "/m" none none
        (fun p => if p = "/m" then some (.cons (.file "a.mp3" 5 true) .nil)
          else none)
        (fun p => if p = "/m/a.mp3" then some "ha" else none)
        (fun _ => none)).detailed,
      e.source_path = "/m/a.mp3" ∧ e.hash = "ha" ∧ e.in_master = true ∧
        e.recommended_action = "EXISTS_IN_MASTER" := by
  exact C4_master_self_ok "/m" none none _ _ _ "/m/a.mp3" "ha"
    (by decide) (by decide) (by decide)

/-- C5: a file whose hashing fails is recorded in the hash-error list, no
detailed entry carries its path, and every other file that hashes
successfully still gets its entry (processing continues). -/
theorem C5_hash_error_ok (master : String) (musik evo : Option String)
    (fs : String → Option FSList) (hashFn : String → Option String)
    (mfn : String → Option (Option Int × Option ℚ)) (f : String)
    (hf : f ∈ (runPipeline master musik evo fs hashFn mfn).all_files)
    (hh : hashFn f = none) :
    f ∈ (runPipeline master musik evo fs hashFn mfn).hash_errors ∧
    (∀ e ∈ (runPipeline master musik evo fs hashFn mfn).detailed,
      e.source_path ≠ f) ∧
    (∀ g ∈ (runPipeline master musik evo fs hashFn mfn).all_files,
      (hashFn g).isSome = true →
      ∃ e ∈ (runPipeline master musik evo fs hashFn mfn).detailed,
        e.source_path = g) := by
  refine ⟨?_, ?_, ?_⟩
  · rw [runPipeline_hash_errors, List.mem_filter]
    exact ⟨hf, by simp [hh]⟩
  · intro e he
    rw [runPipeline_detailed] at he
    rcases List.mem_filterMap.mp he with ⟨g, _, hge⟩
    rcases (analyzeFile_eq_some_iff _ _ _ _ _).mp hge with ⟨h', hg', rfl⟩
    rw [mkEntry_source_path]
    intro hEq
    rw [hEq, hh] at hg'
    exact Option.noConfusion hg'
  · intro g hg hsome
    rcases Option.isSome_iff_exists.mp hsome with ⟨h', hg'⟩
    rw [runPipeline_detailed]
    refine ⟨mkEntry (runPipeline master musik evo fs hashFn mfn).master_hashes
        mfn g h', List.mem_filterMap.mpr ⟨g, hg, ?_⟩, rfl⟩
    unfold analyzeFile
    rw [hg']

/-- C5 witness: in a run where "/m/a.mp3" fails to hash and "/m/b.mp3"
hashes, the failing file lands in the hash-error list. -/
theorem C5_hash_error_witness :
    "/m/a.mp3" ∈ (runPipeline "/m" none none
        (fun p => if p = "/m" then
            some (.cons (.file "a.mp3" 3 true) (.cons (.file "b.mp3" 4 true) .nil))
          else none)
        (fun p => if p = "/m/b.mp3" then some "hb" else none)
        (fun _ => none)).hash_errors := by
  exact (C5_hash_error_ok "/m" none none _ _ _ "/m/a.mp3"
    (by decide) (by decide)).1

/-- C6 counterexample: the claim says `duration_sec` is null exactly when the
extracted duration is absent.  A file whose extracted duration is `0.0` is
present yet reported with a null `duration_sec`, because the code guards with
Python truthiness (`round(duration, 2) if duration else None`). -/
theorem C6_counterexample :
    let fs : String → Option FSList := fun p =>
      if p = "/m" then some (.cons (.file "a.mp3" 5 true) .nil) else none
    let hashFn : String → Option String := fun p =>
      if p = "/m/a.mp3" then some "ha" else none
    let mfn : String → Option (Option Int × Option ℚ) := fun p =>
      if p = "/m/a.mp3" then some (none, some 0) else none
    (get_bitrate_and_duration mfn "/m/a.mp3").2 = some 0 ∧
    (runPipeline "/m" none none fs hashFn mfn).detailed.map
        (fun e => e.duration_sec) = [none] := by
  decide

/-- C6 (amended): an entry's `duration_sec` is null exactly when the
extracted duration is absent or equal to zero; otherwise it is the extracted
duration rounded to 2 decimal places. -/
theorem C6_duration_ok (master : String) (musik evo : Option String)
    (fs : String → Option FSList) (hashFn : String → Option String)
    (mfn : String → Option (Option Int × Option ℚ)) :
    ∀ e ∈ (runPipeline master musik evo fs hashFn mfn).detailed,
      ((get_bitrate_and_duration mfn e.source_path).2 = none →
        e.duration_sec = none) ∧
      ((get_bitrate_and_duration mfn e.source_path).2 = some 0 →
        e.duration_sec = none) ∧
      (∀ d : ℚ, (get_bitrate_and_duration mfn e.source_path).2 = some d →
        d ≠ 0 → e.duration_sec = some (pyRound2 d)) := by
  intro e he
  rw [runPipeline_detailed] at he
  rcases List.mem_filterMap.mp he with ⟨g, _, hge⟩
  rcases (analyzeFile_eq_some_iff _ _ _ _ _).mp hge with ⟨h', _, rfl⟩
  rw [mkEntry_source_path]
  refine ⟨?_, ?_, ?_⟩
  · intro hd
    rw [mkEntry_duration, hd]
  · intro hd
    rw [mkEntry_duration, hd]
    simp
  · intro d hd hd0
    rw [mkEntry_duration, hd]
    simp [hd0]

/-- C6 witness: with an absent extracted duration the entry's duration field
is null. -/
theorem C6_duration_witness :
    (mkEntry [("ha", "/m/a.mp3")] (fun _ => none) "/m/a.mp3" "ha").duration_sec
      = none := by
  exact ((C6_duration_ok "/m" none none
    (fun p => if p = "/m" then some (.cons (.file "a.mp3" 5 true) .nil)
      else none)
    (fun p => if p = "/m/a.mp3" then some "ha" else none)
    (fun _ => none)
    (mkEntry [("ha", "/m/a.mp3")] (fun _ => none) "/m/a.mp3" "ha")
    (by decide)).1) (by decide)

/-- C8: metadata extraction is total: a failed parse or a parse with both
fields absent yields `(none, none)`; a present bitrate is converted from
bits/second to kilobits/second and rounded to the nearest integer (ties to
even; the final conjunct shows the rounding is indeed to a nearest
integer). -/
theorem C8_metadata_ok (mfn : String → Option (Option Int × Option ℚ))
    (p : String) :
    (mfn p = none → get_bitrate_and_duration mfn p = (none, none)) ∧
    (mfn p = some (none, none) →
      get_bitrate_and_duration mfn p = (none, none)) ∧
    (∀ (b : Int) (du : Option ℚ), mfn p = some (some b, du) →
      get_bitrate_and_duration mfn p =
        (some (roundHalfEven ((b : ℚ) / 1000)), du)) ∧
    (∀ x : ℚ, |(roundHalfEven x : ℚ) - x| ≤ 1 / 2) := by
  refine ⟨?_, ?_, ?_, ?_⟩
  · intro hm
    unfold get_bitrate_and_duration
    rw [hm]
  · intro hm
    unfold get_bitrate_and_duration
    rw [hm]
    rfl
  · intro b du hm
    unfold get_bitrate_and_duration
    rw [hm]
    rfl
  · intro x
    unfold roundHalfEven
    have h0 : ((⌊x⌋ : ℤ) : ℚ) ≤ x := Int.floor_le x
    have h1 : x < (⌊x⌋ : ℚ) + 1 := Int.lt_floor_add_one x
    split_ifs with hlt hgt hev
    · rw [abs_le]
      constructor <;> linarith
    · rw [abs_le]
      push_cast
      constructor <;> linarith
    · rw [abs_le]
      constructor <;> linarith
    · rw [abs_le]
      push_cast
      have hr : x - (⌊x⌋ : ℚ) = 1 / 2 := le_antisymm (not_lt.mp hgt) (not_lt.mp hlt)
      constructor <;> linarith

/-- C8 witness: the three shapes of oracle answer, at concrete inputs. -/
theorem C8_metadata_witness :
    get_bitrate_and_duration (fun _ => none) "/m/a.mp3" = (none, none) ∧
    get_bitrate_and_duration (fun _ => some (none, none)) "/m/a.mp3" =
      (none, none) ∧
    get_bitrate_and_duration (fun _ => some (some 320000, none)) "/m/a.mp3" =
      (some (roundHalfEven ((320000 : ℚ) / 1000)), none) := by
  exact ⟨(C8_metadata_ok (fun _ => none) "/m/a.mp3").1 rfl,
    (C8_metadata_ok (fun _ => some (none, none)) "/m/a.mp3").2.1 rfl,
    (C8_metadata_ok (fun _ => some (some 320000, none)) "/m/a.mp3").2.2.1
      320000 none rfl⟩

/-- C9: a root path that does not exist contributes zero candidate paths and
exactly one scan error, and the remaining roots are still scanned: with a
missing second root, the combined file list is exactly the master scan
followed by the third root's scan. -/
theorem C9_missing_root_ok (master musik evo : String)
    (fs : String → Option FSList) (hashFn : String → Option String)
    (mfn : String → Option (Option Int × Option ℚ))
    (hmu : musik ≠ "") (hev : evo ≠ "")
    (hmiss : fs (pyNorm musik) = none) :
    (scan_folder musik fs).1 = [] ∧
    (scan_folder musik fs).2 = ["Path not found: " ++ musik] ∧
    (runPipeline master (some musik) (some evo) fs hashFn mfn).all_files =
      (scan_folder master fs).1 ++ (scan_folder evo fs).1 ∧
    (runPipeline master (some musik) (some evo) fs hashFn mfn).scan_errors =
      (scan_folder master fs).2 ++
        ("Path not found: " ++ musik) :: (scan_folder evo fs).2 := by
  have h1 : scan_folder musik fs = ([], ["Path not found: " ++ musik]) := by
    unfold scan_folder
    rw [hmiss]
  refine ⟨by rw [h1], by rw [h1], ?_, ?_⟩
  · show (scan_folder master fs).1 ++
        (if musik = "" then (([], []) : List String × List String)
          else scan_folder musik fs).1 ++
        (if evo = "" then (([], []) : List String × List String)
          else scan_folder evo fs).1 = _
    rw [if_neg hmu, if_neg hev, h1]
    simp
  · show (scan_folder master fs).2 ++
        (if musik = "" then (([], []) : List String × List String)
          else scan_folder musik fs).2 ++
        (if evo = "" then (([], []) : List String × List String)
          else scan_folder evo fs).2 = _
    rw [if_neg hmu, if_neg hev, h1]
    simp

/-- C9 witness: a concrete run whose second root is missing still scans the
master and third roots. -/
theorem C9_missing_root_witness :
    (scan_folder "/gone" (fun p =>
      if p = "/m" then some (.cons (.file "a.mp3" 2 true) .nil)
      else if p = "/t" then some (.cons (.file "b.mp3" 2 true) .nil)
      else none)).1 = [] ∧
    (scan_folder "/gone" (fun p =>
      if p = "/m" then some (.cons (.file "a.mp3" 2 true) .nil)
      else if p = "/t" then some (.cons (.file "b.mp3" 2 true) .nil)
      else none)).2 = ["Path not found: /gone"] ∧
    (runPipeline "/m" (some "/gone") (some "/t") (fun p =>
      if p = "/m" then some (.cons (.file "a.mp3" 2 true) .nil)
      else if p = "/t" then some (.cons (.file "b.mp3" 2 true) .nil)
      else none) (fun _ => none) (fun _ => none)).all_files =
      (scan_folder "/m" (fun p =>
        if p = "/m" then some (.cons (.file "a.mp3" 2 true) .nil)
        else if p = "/t" then some (.cons (.file "b.mp3" 2 true) .nil)
        else none)).1 ++
      (scan_folder "/t" (fun p =>
        if p = "/m" then some (.cons (.file "a.mp3" 2 true) .nil)
        else if p = "/t" then some (.cons (.file "b.mp3" 2 true) .nil)
        else none)).1 ∧
    (runPipeline "/m" (some "/gone") (some "/t") (fun p =>
      if p = "/m" then some (.cons (.file "a.mp3" 2 true) .nil)
      else if p = "/t" then some (.cons (.file "b.mp3" 2 true) .nil)
      else none) (fun _ => none) (fun _ => none)).scan_errors =
      (scan_folder "/m" (fun p =>
        if p = "/m" then some (.cons (.file "a.mp3" 2 true) .nil)
        else if p = "/t" then some (.cons (.file "b.mp3" 2 true) .nil)
        else none)).2 ++
      ("Path not found: /gone") :: (scan_folder "/t" (fun p =>
        if p = "/m" then some (.cons (.file "a.mp3" 2 true) .nil)
        else if p = "/t" then some (.cons (.file "b.mp3" 2 true) .nil)
        else none)).2 := by
  exact C9_missing_root_ok "/m" "/gone" "/t" _ _ _
    (by decide) (by decide) (by rfl)

/-- Helper: no event is both an insert and a check. -/
theorem Event.not_insert_and_check (e : Event) :
    e.isInsert = true → e.isCheck = true → False := by
  cases e <;> simp [Event.isInsert, Event.isCheck]

/-- C3: in the event trace of the two hashing loops, every master-index
insertion happens before every membership check; moreover every recorded
`in_master` flag equals membership of the entry's digest in the completed
index, and the digest of every successfully hashed file matching the master
test is present in that completed index.  No check ever observes a partially
built index. -/
theorem C3_ordering_ok (master : String) (musik evo : Option String)
    (fs : String → Option FSList) (hashFn : String → Option String)
    (mfn : String → Option (Option Int × Option ℚ)) :
    (∀ i j e₁ e₂,
      (pipelineTrace master
        (runPipeline master musik evo fs hashFn mfn).all_files hashFn).get? i =
          some e₁ →
      (pipelineTrace master
        (runPipeline master musik evo fs hashFn mfn).all_files hashFn).get? j =
          some e₂ →
      e₁.isInsert = true → e₂.isCheck = true → i < j) ∧
    (∀ e ∈ (runPipeline master musik evo fs hashFn mfn).detailed,
      e.in_master =
        dictMem (runPipeline master musik evo fs hashFn mfn).master_hashes
          e.hash) ∧
    (∀ f ∈ (runPipeline master musik evo fs hashFn mfn).all_files,
      startsWithStr master f = true → ∀ h, hashFn f = some h →
      dictMem (runPipeline master musik evo fs hashFn mfn).master_hashes h =
        true) := by
  refine ⟨?_, ?_, ?_⟩
  · intro i j e₁ e₂ hi hj h₁ h₂
    set files := (runPipeline master musik evo fs hashFn mfn).all_files with hfiles
    set A := files.filterMap (fun f =>
      if startsWithStr master f then (hashFn f).map (fun h => Event.insert h f)
      else none) with hA
    set B := files.filterMap (fun f =>
      (hashFn f).map (fun h =>
        Event.check f h (dictMem (buildMasterHashes master files hashFn) h)))
      with hB
    have htr : pipelineTrace master files hashFn = A ++ B := rfl
    rw [htr] at hi hj
    have hAins : ∀ e ∈ A, e.isInsert = true := by
      intro e he
      rcases List.mem_filterMap.mp he with ⟨f, _, hfe⟩
      by_cases hs : startsWithStr master f = true
      · rw [if_pos hs] at hfe
        rcases Option.map_eq_some'.mp hfe with ⟨h, _, hh⟩
        rw [← hh]
        rfl
      · rw [if_neg hs] at hfe
        exact Option.noConfusion hfe
    have hBchk : ∀ e ∈ B, e.isCheck = true := by
      intro e he
      rcases List.mem_filterMap.mp he with ⟨f, _, hfe⟩
      rcases Option.map_eq_some'.mp hfe with ⟨h, _, hh⟩
      rw [← hh]
      rfl
    have hiA : i < A.length := by
      by_contra hge
      push_neg at hge
      rw [List.get?_append_right hge] at hi
      exact Event.not_insert_and_check e₁ h₁ (hBchk e₁ (List.get?_mem hi))
    have hjA : ¬ j < A.length := by
      intro hlt
      rw [List.get?_append hlt] at hj
      exact Event.not_insert_and_check e₂ (hAins e₂ (List.get?_mem hj)) h₂
    omega
  · intro e he
    rw [runPipeline_detailed] at he
    rcases List.mem_filterMap.mp he with ⟨g, _, hge⟩
    rcases (analyzeFile_eq_some_iff _ _ _ _ _).mp hge with ⟨h', _, rfl⟩
    rw [mkEntry_in_master, mkEntry_hash]
  · intro f hf hs h hh
    rw [runPipeline_master_hashes, dictMem_buildMasterHashes]
    exact ⟨f, hf, hs, hh⟩

/-- C3 witness: in a concrete run whose trace is one insertion followed by
one check, the insertion's position precedes the check's. -/
theorem C3_ordering_witness : (0 : Nat) < 1 := by
  exact (C3_ordering_ok "/m" none none
    (fun p => if p = "/m" then some (.cons (.file "b.mp3" 4 true) .nil)
      else none)
    (fun p => if p = "/m/b.mp3" then some "hb" else none)
    (fun _ => none)).1 0 1
    (Event.insert "hb" "/m/b.mp3") (Event.check "/m/b.mp3" "hb" true)
    (by decide) (by decide) (by decide) (by decide)

/-! Scanner characterisation lemmas. -/

theorem exists2_or_distrib {P Q R : String → Nat → Prop} :
    (∃ nm s, (P nm s ∨ Q nm s) ∧ R nm s) ↔
      ((∃ nm s, P nm s ∧ R nm s) ∨ (∃ nm s, Q nm s ∧ R nm s)) := by
  constructor
  · rintro ⟨nm, s, (h | h), hr⟩
    · exact Or.inl ⟨nm, s, h, hr⟩
    · exact Or.inr ⟨nm, s, h, hr⟩
  · rintro (⟨nm, s, h, hr⟩ | ⟨nm, s, h, hr⟩)
    · exact ⟨nm, s, Or.inl h, hr⟩
    · exact ⟨nm, s, Or.inr h, hr⟩

theorem fileStep_report (p nm : String) (s : Nat) (ok : Bool) (q : String) :
    q ∈ (fileStep p nm s ok).1 ↔
      q = pyJoin p nm ∧ ok = true ∧ scanKeep nm s := by
  unfold fileStep scanKeep
  split_ifs <;> simp_all

theorem fileStep_err (p nm : String) (s : Nat)
    (hpre : startsWithStr "._" nm = false)
    (hext : memStr AUDIO_EXT (extOf nm) = true) :
    ("Cannot access: " ++ pyJoin p nm ++ " - err") ∈
      (fileStep p nm s false).2 := by
  unfold fileStep
  rw [if_neg (by simp [hpre]), if_neg (by simp [hext]), if_neg (by simp)]
  simp

theorem walkFilesPass_report : ∀ (p : String) (l : FSList) (q : String),
    q ∈ (walkFilesPass p l).1 ↔
      ∃ nm s, (q, nm, s, true) ∈ reachFilesPass p l ∧ scanKeep nm s
  | p, .nil, q => by simp [walkFilesPass, reachFilesPass]
  | p, .cons (.file nm0 s0 ok0) tl, q => by
    have ih := walkFilesPass_report p tl q
    rw [show walkFilesPass p (.cons (.file nm0 s0 ok0) tl) =
      pairApp (fileStep p nm0 s0 ok0) (walkFilesPass p tl) from rfl]
    rw [show reachFilesPass p (.cons (.file nm0 s0 ok0) tl) =
      (pyJoin p nm0, nm0, s0, ok0) :: reachFilesPass p tl from rfl]
    unfold pairApp
    simp only [List.mem_append, fileStep_report, ih, List.mem_cons]
    rw [exists2_or_distrib]
    constructor
    · rintro (⟨rfl, rfl, hk⟩ | h)
      · exact Or.inl ⟨nm0, s0, rfl, hk⟩
      · exact Or.inr h
    · rintro (⟨nm, s, heq, hk⟩ | h)
      · rw [Prod.mk.injEq, Prod.mk.injEq, Prod.mk.injEq] at heq
        obtain ⟨h1, h2, h3, h4⟩ := heq
        subst h1; subst h2; subst h3
        exact Or.inl ⟨rfl, h4.symm, hk⟩
      · exact Or.inr h
  | p, .cons (.dir d ch) tl, q => by
    have ih := walkFilesPass_report p tl q
    simpa [walkFilesPass, reachFilesPass] using ih

mutual

theorem walkNode_report : ∀ (p : String) (n : FSNode) (q : String),
    q ∈ (walkNode p n).1 ↔
      ∃ nm s, (q, nm, s, true) ∈ reachNode p n ∧ scanKeep nm s
  | p, .file nm0 s0 ok0, q => by simp [walkNode, reachNode]
  | p, .dir d ch, q => by
    have ih := walkListDirs_report (pyJoin p d) ch q
    rw [show walkNode p (.dir d ch) =
      (if keepDir d then
        pairApp (walkFilesPass (pyJoin p d) ch) (walkListDirs (pyJoin p d) ch)
      else ([], [])) from rfl]
    rw [show reachNode p (.dir d ch) =
      (if keepDir d then
        reachFilesPass (pyJoin p d) ch ++ reachListDirs (pyJoin p d) ch
      else []) from rfl]
    by_cases hk : keepDir d = true
    · rw [if_pos hk, if_pos hk]
      unfold pairApp
      simp only [List.mem_append, walkFilesPass_report, ih]
      rw [exists2_or_distrib]
    · rw [if_neg hk, if_neg hk]
      simp

theorem walkListDirs_report : ∀ (p : String) (l : FSList) (q : String),
    q ∈ (walkListDirs p l).1 ↔
      ∃ nm s, (q, nm, s, true) ∈ reachListDirs p l ∧ scanKeep nm s
  | p, .nil, q => by simp [walkListDirs, reachListDirs]
  | p, .cons n tl, q => by
    have ih1 := walkNode_report p n q
    have ih2 := walkListDirs_report p tl q
    rw [show walkListDirs p (.cons n tl) =
      pairApp (walkNode p n) (walkListDirs p tl) from rfl]
    rw [show reachListDirs p (.cons n tl) =
      reachNode p n ++ reachListDirs p tl from rfl]
    unfold pairApp
    simp only [List.mem_append, ih1, ih2]
    rw [exists2_or_distrib]

end

theorem walkTop_report (p : String) (l : FSList) (q : String) :
    q ∈ (walkTop p l).1 ↔
      ∃ nm s, (q, nm, s, true) ∈ reachable p l ∧ scanKeep nm s := by
  unfold walkTop reachable pairApp
  simp only [List.mem_append, walkFilesPass_report, walkListDirs_report]
  rw [exists2_or_distrib]

theorem walkFilesPass_err :
    ∀ (p : String) (l : FSList) (q nm : String) (s : Nat),
    (q, nm, s, false) ∈ reachFilesPass p l →
    startsWithStr "._" nm = false → memStr AUDIO_EXT (extOf nm) = true →
    ("Cannot access: " ++ q ++ " - err") ∈ (walkFilesPass p l).2
  | p, .nil, q, nm, s => by simp [reachFilesPass]
  | p, .cons (.file nm0 s0 ok0) tl, q, nm, s => by
    intro hmem hpre hext
    rw [show reachFilesPass p (.cons (.file nm0 s0 ok0) tl) =
      (pyJoin p nm0, nm0, s0, ok0) :: reachFilesPass p tl from rfl] at hmem
    rw [show walkFilesPass p (.cons (.file nm0 s0 ok0) tl) =
      pairApp (fileStep p nm0 s0 ok0) (walkFilesPass p tl) from rfl]
    unfold pairApp
    rcases List.mem_cons.mp hmem with heq | hmem'
    · rw [Prod.mk.injEq, Prod.mk.injEq, Prod.mk.injEq] at heq
      obtain ⟨h1, h2, h3, h4⟩ := heq
      subst h1; subst h2; subst h3
      refine List.mem_append.mpr (Or.inl ?_)
      rw [← h4]
      exact fileStep_err p nm s hpre hext
    · exact List.mem_append.mpr
        (Or.inr (walkFilesPass_err p tl q nm s hmem' hpre hext))
  | p, .cons (.dir d ch) tl, q, nm, s => by
    intro hmem hpre hext
    rw [show reachFilesPass p (.cons (.dir d ch) tl) =
      reachFilesPass p tl from rfl] at hmem
    rw [show walkFilesPass p (.cons (.dir d ch) tl) =
      walkFilesPass p tl from rfl]
    exact walkFilesPass_err p tl q nm s hmem hpre hext

mutual

theorem walkNode_err : ∀ (p : String) (n : FSNode) (q nm : String) (s : Nat),
    (q, nm, s, false) ∈ reachNode p n →
    startsWithStr "._" nm = false → memStr AUDIO_EXT (extOf nm) = true →
    ("Cannot access: " ++ q ++ " - err") ∈ (walkNode p n).2
  | p, .file nm0 s0 ok0, q, nm, s => by simp [reachNode]
  | p, .dir d ch, q, nm, s => by
    intro hmem hpre hext
    rw [show reachNode p (.dir d ch) =
      (if keepDir d then
        reachFilesPass (pyJoin p d) ch ++ reachListDirs (pyJoin p d) ch
      else []) from rfl] at hmem
    rw [show walkNode p (.dir d ch) =
      (if keepDir d then
        pairApp (walkFilesPass (pyJoin p d) ch) (walkListDirs (pyJoin p d) ch)
      else ([], [])) from rfl]
    by_cases hk : keepDir d = true
    · rw [if_pos hk] at hmem
      rw [if_pos hk]
      unfold pairApp
      rcases List.mem_append.mp hmem with h | h
      · exact List.mem_append.mpr
          (Or.inl (walkFilesPass_err (pyJoin p d) ch q nm s h hpre hext))
      · exact List.mem_append.mpr
          (Or.inr (walkListDirs_err (pyJoin p d) ch q nm s h hpre hext))
    · rw [if_neg hk] at hmem
      exact absurd hmem (List.not_mem_nil _)

theorem walkListDirs_err :
    ∀ (p : String) (l : FSList) (q nm : String) (s : Nat),
    (q, nm, s, false) ∈ reachListDirs p l →
    startsWithStr "._" nm = false → memStr AUDIO_EXT (extOf nm) = true →
    ("Cannot access: " ++ q ++ " - err") ∈ (walkListDirs p l).2
  | p, .nil, q, nm, s => by simp [reachListDirs]
  | p, .cons n tl, q, nm, s => by
    intro hmem hpre hext
    rw [show reachListDirs p (.cons n tl) =
      reachNode p n ++ reachListDirs p tl from rfl] at hmem
    rw [show walkListDirs p (.cons n tl) =
      pairApp (walkNode p n) (walkListDirs p tl) from rfl]
    unfold pairApp
    rcases List.mem_append.mp hmem with h | h
    · exact List.mem_append.mpr (Or.inl (walkNode_err p n q nm s h hpre hext))
    · exact List.mem_append.mpr
        (Or.inr (walkListDirs_err p tl q nm s h hpre hext))

end

theorem walkTop_err (p : String) (l : FSList) (q nm : String) (s : Nat)
    (hmem : (q, nm, s, false) ∈ reachable p l)
    (hpre : startsWithStr "._" nm = false)
    (hext : memStr AUDIO_EXT (extOf nm) = true) :
    ("Cannot access: " ++ q ++ " - err") ∈ (walkTop p l).2 := by
  unfold walkTop pairApp
  rcases List.mem_append.mp hmem with h | h
  · exact List.mem_append.mpr (Or.inl (walkFilesPass_err p l q nm s h hpre hext))
  · exact List.mem_append.mpr (Or.inr (walkListDirs_err p l q nm s h hpre hext))

/-- C7 counterexample: the claim says the scanner outputs exactly the files
under the root passing the name/extension/size filters.  A positive-size,
readable "x.mp3" inside the hidden directory ".h" is under the root and
passes every per-file filter, yet the scan output is empty, because the
traversal prunes hidden directories before descending. -/
theorem C7_counterexample :
    let children : FSList :=
      .cons (.dir ".h" (.cons (.file "x.mp3" 1 true) .nil)) .nil
    let fs : String → Option FSList := fun p =>
      if p = "/r" then some children else none
    underList "/r" children = [("/r/.h/x.mp3", "x.mp3", 1, true)] ∧
    startsWithStr "._" "x.mp3" = false ∧
    memStr AUDIO_EXT (extOf "x.mp3") = true ∧
    (0 : Nat) < 1 ∧
    scan_folder "/r" fs = ([], []) := by
  decide

/-- C7 (amended): the scanner's output contains exactly those regular files
reachable from the root without entering pruned directories (hidden names or
`.localized` suffixes) whose name does not begin with "._", whose lowercased
extension is a recognised audio extension and whose size is strictly
positive; a reachable file passing the name and extension filters whose
existence/size check raises is omitted and recorded as a scan error. -/
theorem C7_scanner_ok (root : String) (fs : String → Option FSList)
    (children : FSList) (hfs : fs (pyNorm root) = some children) :
    (∀ q, q ∈ (scan_folder root fs).1 ↔
      ∃ nm s, (q, nm, s, true) ∈ reachable (pyNorm root) children ∧
        scanKeep nm s) ∧
    (∀ q nm s, (q, nm, s, false) ∈ reachable (pyNorm root) children →
      startsWithStr "._" nm = false → memStr AUDIO_EXT (extOf nm) = true →
      ("Cannot access: " ++ q ++ " - err") ∈ (scan_folder root fs).2) := by
  unfold scan_folder
  rw [hfs]
  exact ⟨fun q => walkTop_report (pyNorm root) children q,
    fun q nm s => walkTop_err (pyNorm root) children q nm s⟩

/-- C7 witness: a readable top-level "a.mp3" of size 2 is in the scan
output. -/
theorem C7_scanner_witness :
    "/r/a.mp3" ∈ (scan_folder "/r" (fun p =>
      if p = "/r" then some (.cons (.file "a.mp3" 2 true) .nil)
      else none)).1 := by
  exact ((C7_scanner_ok "/r" _ (.cons (.file "a.mp3" 2 true) .nil)
    (by rfl)).1 "/r/a.mp3").mpr
    ⟨"a.mp3", 2, by decide, by decide, by decide, by decide⟩

end AudioSync
